import Mathlib

/-!
Shallow embedding of `src/synthetic_data.py` (`make_synthetic_test`).

Modelling conventions:
* Python/NumPy floating-point values are modelled as exact rationals `ℚ`.
* `pandas` timestamps are modelled as rational numbers of seconds; the
  timestamp column `df_train['time']` becomes `trainTimes : List ℚ`.
* The NumPy generator `np.random.default_rng(seed)` is a deterministic pure
  function of the seed.  It is modelled by an oracle structure `RNG` whose
  fields give the successive draws (Gaussian draws per axis/row, and the
  per-block uniform/integer/choice draws), each constrained to the support of
  the corresponding NumPy distribution.  Any concrete seeded generator run
  corresponds to one concrete `RNG` value.
* Python exceptions are modelled with `Except Err`: `times[0]` on an empty
  list raises `IndexError`; `MaxC[axis]` on a missing key raises `KeyError`;
  `np.random.Generator.choice` on an empty list raises `ValueError`;
  `round(inf)` (from division by a zero sampling interval) raises
  `OverflowError`.
* `np.std` returns a square root, which has no exact rational value; it is
  abstracted as a function parameter `stdFn : List ℚ → ℚ` (the claims below
  never depend on its concrete value).
* `df_train['time'].max()` is modelled by `listMax`, which agrees with pandas
  on every non-empty time column (the spec's interface, section 6, requires a
  non-empty training reference; theorems that depend on the start anchor carry
  a `trainTimes ≠ []` hypothesis).
-/

/-- Python exceptions that `make_synthetic_test` can raise. -/
inductive Err where
  | indexErr : Err
  | keyErr : String → Err
  | valueErr : Err
  | overflowErr : Err
deriving DecidableEq, Repr

/-- The returned DataFrame `df_test`: column `time`, column `time_numeric`,
and one value column per axis (in axis-list order, keyed by axis name). -/
structure DfTest where
  time : List ℚ
  time_numeric : List ℚ
  cols : List (String × List ℚ)
deriving DecidableEq, Repr

/-- Oracle for the seeded NumPy generator.  `gauss j i` is the standard-normal
draw used for axis number `j`, row `i` (the code scales it by the residual
standard deviation); `lenU k`/`liftU k` are the uniform-[0,1) draws behind the
`rng.uniform` calls of block `k`; `startN k hi` is the `rng.integers(0, hi)`
draw of block `k`; `axisU k n` is the index drawn by `rng.choice` among `n`
axes in block `k`.  The proof fields record the support of each NumPy
distribution. -/
structure RNG where
  gauss : Nat → Nat → ℚ
  lenU : Nat → ℚ
  liftU : Nat → ℚ
  startN : Nat → Nat → Nat
  axisU : Nat → Nat → Nat
  lenU_mem : ∀ k, 0 ≤ lenU k ∧ lenU k < 1
  liftU_mem : ∀ k, 0 ≤ liftU k ∧ liftU k < 1
  startN_lt : ∀ k hi, 0 < hi → startN k hi < hi
  axisU_lt : ∀ k n, 0 < n → axisU k n < n

/-- Differences of consecutive entries: `df_train['time'].diff()` with the
leading `NaN` dropped (as `np.nanmedian` ignores it). -/
def consecDiffs : List ℚ → List ℚ
  | [] => []
  | [_] => []
  | a :: b :: rest => (b - a) :: consecDiffs (b :: rest)

/-- Insertion into a sorted list, for the sorting underlying the median. -/
def insertSorted (x : ℚ) : List ℚ → List ℚ
  | [] => [x]
  | y :: ys => if x ≤ y then x :: y :: ys else y :: insertSorted x ys

/-- Insertion sort. -/
def sortQ (xs : List ℚ) : List ℚ := xs.foldr insertSorted []

/-- NumPy median of a list: `none` on an empty list (where `np.nanmedian`
yields `NaN`), otherwise the middle element, or the mean of the two middle
elements for even length. -/
def medianQ (xs : List ℚ) : Option ℚ :=
  let s := sortQ xs
  let n := s.length
  if n = 0 then none
  else if n % 2 = 1 then some (s.getD (n / 2) 0)
  else some ((s.getD (n / 2 - 1) 0 + s.getD (n / 2) 0) / 2)

/-- Lines 53–57 of the source: a supplied finite interval is kept verbatim
(`none` stands for `None` or a non-finite float); otherwise the median of the
consecutive training time differences, replaced by `1.0` when that median is
`NaN` (empty diff list) or non-positive. -/
def resolveInterval (trainTimes : List ℚ) (sample_interval_sec : Option ℚ) : ℚ :=
  match sample_interval_sec with
  | some q => q
  | none =>
    match medianQ (consecDiffs trainTimes) with
    | none => 1
    | some m => if m ≤ 0 then 1 else m

/-- Maximum of a time column (`df_train['time'].max()`); agrees with pandas on
every non-empty column. -/
def listMax (xs : List ℚ) : ℚ := xs.foldl max (xs.headD 0)

/-- Python 3 `round` to an integer: round-half-to-even. -/
def pyRound (q : ℚ) : ℤ :=
  let f := ⌊q⌋
  let r := q - f
  if r < 1 / 2 then f
  else if 1 / 2 < r then f + 1
  else if f % 2 = 0 then f else f + 1

/-- Line 86: `block_len_sec = rng.uniform(block_min_sec, block_max_sec)`. -/
def blockLenSec (rng : RNG) (bmin bmax : ℚ) (k : Nat) : ℚ :=
  bmin + (bmax - bmin) * rng.lenU k

/-- Line 87: `block_len_rows = max(1, int(round(block_len_sec / interval)))`. -/
def blockLenRows (rng : RNG) (bmin bmax interval : ℚ) (k : Nat) : Nat :=
  (max 1 (pyRound (blockLenSec rng bmin bmax k / interval))).toNat

/-- Line 88: `start_idx = rng.integers(0, max(1, n_rows - block_len_rows))`
(Python's possibly-negative `n_rows - block_len_rows` and Nat-truncating
subtraction give the same value to `max 1 _`). -/
def blockStart (rng : RNG) (nR len k : Nat) : Nat :=
  rng.startN k (max 1 (nR - len))

/-- Line 89: `end_idx = min(n_rows, start_idx + block_len_rows)`. -/
def blockEnd (nR s len : Nat) : Nat := min nR (s + len)

/-- Line 90: `axis = rng.choice(axes)` (the drawn index; the empty-axes
`ValueError` is raised by `injectOne` before this is used). -/
def blockAxis (rng : RNG) (axes : List String) (k : Nat) : String :=
  axes.getD (rng.axisU k axes.length) ""

/-- Line 94: `lift = abs(MaxC[axis]) * rng.uniform(1.2, 1.5)`. -/
def liftAbove (rng : RNG) (thr : ℚ) (k : Nat) : ℚ :=
  |thr| * (6 / 5 + (3 / 10) * rng.liftU k)

/-- Line 97: `lift = abs(res_std[axis]) * rng.uniform(2.5, 4.0)`. -/
def liftNoise (rng : RNG) (sd : ℚ) (k : Nat) : ℚ :=
  |sd| * (5 / 2 + (3 / 2) * rng.liftU k)

/-- One value column after `df_test.loc[s:e-1, axis] += lift`: the pandas
label slice is inclusive of `s` and of `e-1`, i.e. rows `s ≤ i < e`. -/
def addLiftRow (lift : ℚ) (s e : Nat) : Nat → List ℚ → List ℚ
  | _, [] => []
  | i, v :: vs =>
    (if s ≤ i ∧ i < e then v + lift else v) :: addLiftRow lift s e (i + 1) vs

/-- Line 99 on the whole table: add `lift` to rows `[s, e)` of the column
named `axis`, leaving every other column untouched. -/
def addLift (lift : ℚ) (axis : String) (s e : Nat)
    (cols : List (String × List ℚ)) : List (String × List ℚ) :=
  cols.map (fun p => if p.1 = axis then (p.1, addLiftRow lift s e 0 p.2) else p)

/-- One iteration of the loop at lines 85–99 (block number `k`).  Division by
a zero interval makes `round` receive an infinity (`OverflowError`); `choice`
of an empty axis list raises `ValueError`; a missing `MaxC` key raises
`KeyError`. -/
def injectOne (rng : RNG) (nR : Nat) (interval bmin bmax : ℚ)
    (axes : List String) (res_std : String → ℚ) (force_above : Bool)
    (MaxC : Option (List (String × ℚ))) (k : Nat)
    (cols : List (String × List ℚ)) : Except Err (List (String × List ℚ)) :=
  if interval = 0 then .error .overflowErr
  else if axes = [] then .error .valueErr
  else
    let len := blockLenRows rng bmin bmax interval k
    let s := blockStart rng nR len k
    let e := blockEnd nR s len
    let axis := blockAxis rng axes k
    match force_above, MaxC with
    | true, some mc =>
      match mc.lookup axis with
      | none => .error (.keyErr axis)
      | some thr => .ok (addLift (liftAbove rng thr k) axis s e cols)
    | true, none => .ok (addLift (liftNoise rng (res_std axis) k) axis s e cols)
    | false, some _ => .ok (addLift (liftNoise rng (res_std axis) k) axis s e cols)
    | false, none => .ok (addLift (liftNoise rng (res_std axis) k) axis s e cols)

/-- The loop `for _ in range(anomaly_blocks)` from block number `k`, with `b`
blocks still to run. -/
def injectFrom (rng : RNG) (nR : Nat) (interval bmin bmax : ℚ)
    (axes : List String) (res_std : String → ℚ) (force_above : Bool)
    (MaxC : Option (List (String × ℚ))) (k : Nat) :
    Nat → List (String × List ℚ) → Except Err (List (String × List ℚ))
  | 0, cols => .ok cols
  | b + 1, cols =>
    match injectOne rng nR interval bmin bmax axes res_std force_above MaxC k cols with
    | .error err => .error err
    | .ok cols1 => injectFrom rng nR interval bmin bmax axes res_std force_above MaxC (k + 1) b cols1

/-- The lift actually applied in the round that produced an `.ok` result:
`liftAbove` on the found threshold in threshold-aware mode, `liftNoise`
otherwise (the `none`-lookup case returns a dummy `0`; it corresponds to the
`KeyError` branch, which never yields `.ok`). -/
def blockLiftVal (rng : RNG) (axes : List String) (res_std : String → ℚ)
    (force_above : Bool) (MaxC : Option (List (String × ℚ))) (k : Nat) : ℚ :=
  match force_above, MaxC with
  | true, some mc =>
    match mc.lookup (blockAxis rng axes k) with
    | none => 0
    | some thr => liftAbove rng thr k
  | true, none => liftNoise rng (res_std (blockAxis rng axes k)) k
  | false, some _ => liftNoise rng (res_std (blockAxis rng axes k)) k
  | false, none => liftNoise rng (res_std (blockAxis rng axes k)) k

/-- Shape of a table: column names with their lengths (used to state that
injection only rewrites cell values). -/
def colShape (cols : List (String × List ℚ)) : List (String × Nat) :=
  cols.map (fun p => (p.1, p.2.length))

/-- Line 72: `res_std[a] = float(np.std(residuals_dict[a]))` when a residual
dictionary is supplied, else `1.0`.  `stdFn` abstracts `np.std`. -/
def resStdOf (stdFn : List ℚ → ℚ) (residuals_dict : Option (String → List ℚ))
    (a : String) : ℚ :=
  match residuals_dict with
  | some rd => stdFn (rd a)
  | none => 1

/-- Lines 76–80 for one axis: `models[axis].predict(X_test) + rng.normal(0,
res_std[axis], n_rows) + drift_per_sec * time_numeric`, row by row (`i0` is
the row number of the list head, `g` the axis's Gaussian draw stream). -/
def baselineCol (predict : ℚ → ℚ) (sd drift : ℚ) (g : Nat → ℚ) :
    Nat → List ℚ → List ℚ
  | _, [] => []
  | i, t :: ts => (predict t + sd * g i + drift * t) :: baselineCol predict sd drift g (i + 1) ts

/-- The `for axis in axes` loop of lines 76–80 (`j0` is the number of the
axis at the list head, fixing the axis-major draw order of the noise). -/
def baselineCols (models : String → ℚ → ℚ) (res_std : String → ℚ)
    (drift : ℚ) (rng : RNG) (tn : List ℚ) :
    Nat → List String → List (String × List ℚ)
  | _, [] => []
  | j, a :: rest =>
    (a, baselineCol (models a) (res_std a) drift (fun i => rng.gauss j i) 0 tn)
      :: baselineCols models res_std drift rng tn (j + 1) rest

/-- Line 64: the list comprehension
`[start_time + pd.to_timedelta(i*interval, unit="s") for i in range(n_rows)]`. -/
def mkTimes (start interval : ℚ) (nR : Nat) : List ℚ :=
  (List.range nR).map (fun (i : ℕ) => start + (i : ℚ) * interval)

set_option linter.unusedVariables false in
/-- The full `make_synthetic_test` of `src/synthetic_data.py`.  `stdFn`
abstracts `np.std`, `rng` the seeded generator; `models a` is
`models[a].predict` acting on one elapsed-seconds value; the remaining
parameters are the Python ones (`MinC` is accepted and, as in the source,
never read).  Returns the pair `(df_test, sample_interval_sec)` or the raised
exception. -/
def make_synthetic_test (stdFn : List ℚ → ℚ) (rng : RNG)
    (trainTimes : List ℚ) (models : String → ℚ → ℚ) (axes : List String)
    (n_rows : Option Nat) (sample_interval_sec : Option ℚ)
    (anomaly_blocks : Nat) (block_min_sec block_max_sec drift_per_sec : ℚ)
    (residuals_dict : Option (String → List ℚ)) (force_above : Bool)
    (MinC MaxC : Option (List (String × ℚ))) : Except Err (DfTest × ℚ) :=
  let interval := resolveInterval trainTimes sample_interval_sec
  let nR := n_rows.getD trainTimes.length
  let times := mkTimes (listMax trainTimes + interval) interval nR
  match times with
  | [] => .error .indexErr
  | t0 :: _ =>
    let tn := times.map (fun t => t - t0)
    let res_std := resStdOf stdFn residuals_dict
    let cols0 := baselineCols models res_std drift_per_sec rng tn 0 axes
    match injectFrom rng nR interval block_min_sec block_max_sec axes res_std
        force_above MaxC 0 anomaly_blocks cols0 with
    | .error err => .error err
    | .ok cols => .ok (⟨times, tn, cols⟩, interval)

/-- A concrete generator value used to evaluate the embedding on concrete
inputs: every draw is the lowest point of its support. -/
def rng0 : RNG where
  gauss := fun _ _ => 0
  lenU := fun _ => 0
  liftU := fun _ => 0
  startN := fun _ _ => 0
  axisU := fun _ _ => 0
  lenU_mem := fun _ => by norm_num
  liftU_mem := fun _ => by norm_num
  startN_lt := fun _ _ h => h
  axisU_lt := fun _ _ h => h

/-! ### Helper lemmas about the embedded operations -/

theorem le_foldl_max (xs : List ℚ) (acc : ℚ) : acc ≤ xs.foldl max acc := by
  induction xs generalizing acc with
  | nil => exact le_refl acc
  | cons y ys ih => exact le_trans (le_max_left acc y) (ih (max acc y))

theorem mem_le_foldl_max {x : ℚ} : ∀ {xs : List ℚ}, x ∈ xs → ∀ acc : ℚ,
    x ≤ xs.foldl max acc := by
  intro xs
  induction xs with
  | nil => intro h; cases h
  | cons y ys ih =>
    intro h acc
    rw [List.foldl_cons]
    rcases List.mem_cons.mp h with h1 | h2
    · subst h1
      exact le_trans (le_max_right acc x) (le_foldl_max ys (max acc x))
    · exact ih h2 (max acc y)

theorem le_listMax {x : ℚ} {xs : List ℚ} (h : x ∈ xs) : x ≤ listMax xs :=
  mem_le_foldl_max h _

theorem mkTimes_length (st iv : ℚ) (n : Nat) : (mkTimes st iv n).length = n := by
  rw [mkTimes, List.length_map, List.length_range]

theorem mkTimes_getElem? (st iv : ℚ) {i n : Nat} (h : i < n) :
    (mkTimes st iv n)[i]? = some (st + (i : ℚ) * iv) := by
  rw [mkTimes, List.getElem?_map, List.getElem?_range h, Option.map_some']

theorem mkTimes_getD (st iv : ℚ) {i n : Nat} (h : i < n) :
    (mkTimes st iv n).getD i 0 = st + (i : ℚ) * iv := by
  rw [List.getD_eq_getElem?_getD, mkTimes_getElem? st iv h, Option.getD_some]

theorem mkTimes_succ (st iv : ℚ) (n : Nat) :
    mkTimes st iv (n + 1) = st :: mkTimes (st + iv) iv n := by
  rw [mkTimes, mkTimes, List.range_succ_eq_map, List.map_cons, List.map_map]
  refine congrArg₂ List.cons (by push_cast; ring) (List.map_congr_left ?_)
  intro a _
  simp only [Function.comp_apply]
  push_cast
  ring

theorem mkTimes_zero_eq (st iv : ℚ) (n : Nat) :
    (mkTimes st iv n).map (fun t => t - st) = mkTimes 0 iv n := by
  rw [mkTimes, mkTimes, List.map_map]
  refine List.map_congr_left ?_
  intro a _
  simp only [Function.comp_apply]
  ring

theorem baselineCol_length (p : ℚ → ℚ) (sd dr : ℚ) (g : Nat → ℚ) :
    ∀ (ts : List ℚ) (i0 : Nat), (baselineCol p sd dr g i0 ts).length = ts.length := by
  intro ts
  induction ts with
  | nil => intro i0; rfl
  | cons t ts ih => intro i0; simp [baselineCol, ih]

theorem baselineCol_getElem? (p : ℚ → ℚ) (sd dr : ℚ) (g : Nat → ℚ) :
    ∀ (ts : List ℚ) (i0 i : Nat), i < ts.length →
      (baselineCol p sd dr g i0 ts)[i]? =
        some (p (ts.getD i 0) + sd * g (i0 + i) + dr * ts.getD i 0) := by
  intro ts
  induction ts with
  | nil => intro i0 i h; simp at h
  | cons t ts ih =>
    intro i0 i h
    cases i with
    | zero => simp [baselineCol]
    | succ i =>
      have h' : i < ts.length := by
        have := h
        simp only [List.length_cons] at this
        omega
      simp only [baselineCol, List.getElem?_cons_succ, List.getD_cons_succ]
      rw [ih (i0 + 1) i h', show (i0 + 1) + i = i0 + (i + 1) from by omega]

theorem baselineCols_getElem? (models : String → ℚ → ℚ) (rs : String → ℚ)
    (dr : ℚ) (rng : RNG) (tn : List ℚ) :
    ∀ (axes : List String) (j0 j : Nat) (a : String), axes[j]? = some a →
      (baselineCols models rs dr rng tn j0 axes)[j]? =
        some (a, baselineCol (models a) (rs a) dr (fun i => rng.gauss (j0 + j) i) 0 tn) := by
  intro axes
  induction axes with
  | nil => intro j0 j a h; simp at h
  | cons b rest ih =>
    intro j0 j a h
    cases j with
    | zero =>
      simp only [List.getElem?_cons_zero, Option.some.injEq] at h
      subst h
      simp [baselineCols]
    | succ j =>
      simp only [List.getElem?_cons_succ] at h
      simp only [baselineCols, List.getElem?_cons_succ]
      rw [ih (j0 + 1) j a h, show (j0 + 1) + j = j0 + (j + 1) from by omega]

theorem baselineCols_length (models : String → ℚ → ℚ) (rs : String → ℚ)
    (dr : ℚ) (rng : RNG) (tn : List ℚ) :
    ∀ (axes : List String) (j0 : Nat),
      (baselineCols models rs dr rng tn j0 axes).length = axes.length := by
  intro axes
  induction axes with
  | nil => intro j0; rfl
  | cons b rest ih => intro j0; simp [baselineCols, ih]

theorem baselineCols_mem_length (models : String → ℚ → ℚ) (rs : String → ℚ)
    (dr : ℚ) (rng : RNG) (tn : List ℚ) :
    ∀ (axes : List String) (j0 : Nat) (q : String × List ℚ),
      q ∈ baselineCols models rs dr rng tn j0 axes → q.2.length = tn.length := by
  intro axes
  induction axes with
  | nil => intro j0 q h; cases h
  | cons b rest ih =>
    intro j0 q h
    rcases List.mem_cons.mp h with h1 | h2
    · rw [h1]; exact baselineCol_length _ _ _ _ tn 0
    · exact ih (j0 + 1) q h2

theorem addLiftRow_length (l : ℚ) (s e : Nat) :
    ∀ (vs : List ℚ) (i0 : Nat), (addLiftRow l s e i0 vs).length = vs.length := by
  intro vs
  induction vs with
  | nil => intro i0; rfl
  | cons v vs ih => intro i0; simp [addLiftRow, ih]

theorem addLiftRow_getElem? (l : ℚ) (s e : Nat) :
    ∀ (vs : List ℚ) (i0 i : Nat), i < vs.length →
      (addLiftRow l s e i0 vs)[i]? =
        some (if s ≤ i0 + i ∧ i0 + i < e then vs.getD i 0 + l else vs.getD i 0) := by
  intro vs
  induction vs with
  | nil => intro i0 i h; simp at h
  | cons v vs ih =>
    intro i0 i h
    cases i with
    | zero => simp [addLiftRow]
    | succ i =>
      have h' : i < vs.length := by
        have := h
        simp only [List.length_cons] at this
        omega
      simp only [addLiftRow, List.getElem?_cons_succ, List.getD_cons_succ]
      rw [ih (i0 + 1) i h', show (i0 + 1) + i = i0 + (i + 1) from by omega]

theorem addLift_length (l : ℚ) (a : String) (s e : Nat)
    (cols : List (String × List ℚ)) : (addLift l a s e cols).length = cols.length := by
  rw [addLift, List.length_map]

theorem addLift_getElem? (l : ℚ) (a : String) (s e : Nat)
    (cols : List (String × List ℚ)) (j : Nat) :
    (addLift l a s e cols)[j]? =
      (cols[j]?).map (fun p => if p.1 = a then (p.1, addLiftRow l s e 0 p.2) else p) := by
  rw [addLift, List.getElem?_map]

theorem colShape_addLift (l : ℚ) (a : String) (s e : Nat)
    (cols : List (String × List ℚ)) : colShape (addLift l a s e cols) = colShape cols := by
  rw [colShape, colShape, addLift, List.map_map]
  refine List.map_congr_left ?_
  intro p _
  simp only [Function.comp_apply]
  by_cases hp : p.1 = a
  · simp [hp, addLiftRow_length]
  · simp [hp]

/-- Pointwise description of one pandas `+=` slice assignment: the selected
column gains `l` on rows `[s, e)`; every other cell is unchanged. -/
theorem addLift_spec (l : ℚ) (a : String) (s e : Nat)
    (cols : List (String × List ℚ)) :
    (addLift l a s e cols).length = cols.length ∧
    ∀ j, j < cols.length →
      ((addLift l a s e cols).getD j ("", [])).1 = (cols.getD j ("", [])).1 ∧
      ((addLift l a s e cols).getD j ("", [])).2.length = (cols.getD j ("", [])).2.length ∧
      ∀ i, i < (cols.getD j ("", [])).2.length →
        ((addLift l a s e cols).getD j ("", [])).2.getD i 0 =
          (if (cols.getD j ("", [])).1 = a ∧ s ≤ i ∧ i < e
           then (cols.getD j ("", [])).2.getD i 0 + l
           else (cols.getD j ("", [])).2.getD i 0) := by
  refine ⟨addLift_length l a s e cols, ?_⟩
  intro j hj
  obtain ⟨p, hp⟩ : ∃ p, cols[j]? = some p := by
    cases hp : cols[j]? with
    | none =>
      have hlen := List.getElem?_eq_none_iff.mp hp
      omega
    | some p => exact ⟨p, rfl⟩
  have hgd : cols.getD j ("", []) = p := by
    rw [List.getD_eq_getElem?_getD, hp, Option.getD_some]
  have hgd' : (addLift l a s e cols).getD j ("", []) =
      (if p.1 = a then (p.1, addLiftRow l s e 0 p.2) else p) := by
    rw [List.getD_eq_getElem?_getD, addLift_getElem?, hp, Option.map_some', Option.getD_some]
  rw [hgd, hgd']
  by_cases hpa : p.1 = a
  · rw [if_pos hpa]
    refine ⟨rfl, addLiftRow_length l s e p.2 0, ?_⟩
    intro i hi
    have := addLiftRow_getElem? l s e p.2 0 i hi
    rw [List.getD_eq_getElem?_getD, this, Option.getD_some]
    simp only [Nat.zero_add]
    by_cases hse : s ≤ i ∧ i < e
    · rw [if_pos hse, if_pos ⟨hpa, hse⟩]
    · rw [if_neg hse, if_neg (by intro hc; exact hse hc.2)]
  · rw [if_neg hpa]
    refine ⟨rfl, rfl, ?_⟩
    intro i hi
    rw [if_neg (by intro hc; exact hpa hc.1)]

/-- Inversion for a successful injection round: the branch conditions held and
the result is exactly an additive slice update with the drawn lift. -/
theorem injectOne_ok_inv {rng : RNG} {nR : Nat} {interval bmin bmax : ℚ}
    {axes : List String} {rs : String → ℚ} {fa : Bool}
    {mx : Option (List (String × ℚ))} {k : Nat}
    {cols cols' : List (String × List ℚ)}
    (h : injectOne rng nR interval bmin bmax axes rs fa mx k cols = .ok cols') :
    interval ≠ 0 ∧ axes ≠ [] ∧
    cols' = addLift (blockLiftVal rng axes rs fa mx k) (blockAxis rng axes k)
      (blockStart rng nR (blockLenRows rng bmin bmax interval k) k)
      (blockEnd nR (blockStart rng nR (blockLenRows rng bmin bmax interval k) k)
        (blockLenRows rng bmin bmax interval k)) cols := by
  by_cases hiv : interval = 0
  · rw [injectOne, if_pos hiv] at h
    cases h
  by_cases hax : axes = []
  · rw [injectOne, if_neg hiv, if_pos hax] at h
    cases h
  refine ⟨hiv, hax, ?_⟩
  rw [injectOne, if_neg hiv, if_neg hax] at h
  rw [blockLiftVal.eq_def]
  cases fa with
  | false =>
    cases mx with
    | none => exact ((Except.ok.injEq _ _).mp h).symm
    | some mc => exact ((Except.ok.injEq _ _).mp h).symm
  | true =>
    cases mx with
    | none => exact ((Except.ok.injEq _ _).mp h).symm
    | some mc =>
      cases hl : mc.lookup (blockAxis rng axes k) with
      | none =>
        simp only [hl] at h
        cases h
      | some thr =>
        simp only [hl] at h ⊢
        exact ((Except.ok.injEq _ _).mp h).symm

theorem injectOne_shape {rng : RNG} {nR : Nat} {interval bmin bmax : ℚ}
    {axes : List String} {rs : String → ℚ} {fa : Bool}
    {mx : Option (List (String × ℚ))} {k : Nat}
    {cols cols' : List (String × List ℚ)}
    (h : injectOne rng nR interval bmin bmax axes rs fa mx k cols = .ok cols') :
    colShape cols' = colShape cols := by
  rw [(injectOne_ok_inv h).2.2, colShape_addLift]

theorem injectFrom_shape {rng : RNG} {nR : Nat} {interval bmin bmax : ℚ}
    {axes : List String} {rs : String → ℚ} {fa : Bool}
    {mx : Option (List (String × ℚ))} :
    ∀ (b k : Nat) (cols cols' : List (String × List ℚ)),
      injectFrom rng nR interval bmin bmax axes rs fa mx k b cols = .ok cols' →
      colShape cols' = colShape cols := by
  intro b
  induction b with
  | zero =>
    intro k cols cols' h
    rw [injectFrom] at h
    cases h
    rfl
  | succ b ih =>
    intro k cols cols' h
    rw [injectFrom] at h
    cases h1 : injectOne rng nR interval bmin bmax axes rs fa mx k cols with
    | error e => rw [h1] at h; cases h
    | ok c1 =>
      rw [h1] at h
      exact (ih (k + 1) c1 cols' h).trans (injectOne_shape h1)

/-- A threshold-aware round whose drawn axis is missing from `MaxC` raises the
missing-key error naming that axis. -/
theorem injectOne_missing_key {rng : RNG} {nR : Nat} {interval bmin bmax : ℚ}
    {axes : List String} {rs : String → ℚ} {mc : List (String × ℚ)} {k : Nat}
    (cols : List (String × List ℚ)) (hiv : interval ≠ 0) (hax : axes ≠ [])
    (hmiss : mc.lookup (blockAxis rng axes k) = none) :
    injectOne rng nR interval bmin bmax axes rs true (some mc) k cols =
      .error (.keyErr (blockAxis rng axes k)) := by
  rw [injectOne, if_neg hiv, if_neg hax]
  simp only [hmiss]

/-- A round with `force_above=True` but no `MaxC` mapping at all silently
takes the noise-relative branch. -/
theorem injectOne_no_MaxC {rng : RNG} {nR : Nat} {interval bmin bmax : ℚ}
    {axes : List String} {rs : String → ℚ} {k : Nat}
    (cols : List (String × List ℚ)) (hiv : interval ≠ 0) (hax : axes ≠ []) :
    injectOne rng nR interval bmin bmax axes rs true none k cols =
      .ok (addLift (liftNoise rng (rs (blockAxis rng axes k)) k)
        (blockAxis rng axes k)
        (blockStart rng nR (blockLenRows rng bmin bmax interval k) k)
        (blockEnd nR (blockStart rng nR (blockLenRows rng bmin bmax interval k) k)
          (blockLenRows rng bmin bmax interval k)) cols) := by
  rw [injectOne, if_neg hiv, if_neg hax]

/-- With `force_above=True` and `MaxC=None`, the whole injection loop never
raises (given a nonzero interval and a nonempty axis list). -/
theorem injectFrom_no_MaxC_ok {rng : RNG} {nR : Nat} {interval bmin bmax : ℚ}
    {axes : List String} {rs : String → ℚ}
    (hiv : interval ≠ 0) (hax : axes ≠ []) :
    ∀ (b k : Nat) (cols : List (String × List ℚ)),
      ∃ cols', injectFrom rng nR interval bmin bmax axes rs true none k b cols = .ok cols' := by
  intro b
  induction b with
  | zero => intro k cols; exact ⟨cols, rfl⟩
  | succ b ih =>
    intro k cols
    rw [injectFrom, injectOne_no_MaxC cols hiv hax]
    exact ih (k + 1) _

/-- Control-flow of `make_synthetic_test` for at least one requested row: the
result is the injection loop's verdict on the baseline table, with the time
columns fully determined by the resolved interval. -/
theorem make_unfold {stdFn : List ℚ → ℚ} {rng : RNG} {trainTimes : List ℚ}
    {models : String → ℚ → ℚ} {axes : List String} {n_rows : Option Nat}
    {sis : Option ℚ} {ab : Nat} {bmin bmax drift : ℚ}
    {rd : Option (String → List ℚ)} {fa : Bool} {mn mx : Option (List (String × ℚ))}
    (hn : 1 ≤ n_rows.getD trainTimes.length) :
    make_synthetic_test stdFn rng trainTimes models axes n_rows sis ab bmin bmax
        drift rd fa mn mx =
      match injectFrom rng (n_rows.getD trainTimes.length)
          (resolveInterval trainTimes sis) bmin bmax axes (resStdOf stdFn rd) fa mx 0 ab
          (baselineCols models (resStdOf stdFn rd) drift rng
            (mkTimes 0 (resolveInterval trainTimes sis) (n_rows.getD trainTimes.length)) 0 axes) with
      | .error err => .error err
      | .ok cols =>
        .ok (⟨mkTimes (listMax trainTimes + resolveInterval trainTimes sis)
              (resolveInterval trainTimes sis) (n_rows.getD trainTimes.length),
            mkTimes 0 (resolveInterval trainTimes sis) (n_rows.getD trainTimes.length),
            cols⟩, resolveInterval trainTimes sis) := by
  obtain ⟨m, hm⟩ : ∃ m, n_rows.getD trainTimes.length = m + 1 :=
    ⟨n_rows.getD trainTimes.length - 1, by omega⟩
  have hcons : mkTimes (listMax trainTimes + resolveInterval trainTimes sis)
      (resolveInterval trainTimes sis) (n_rows.getD trainTimes.length) =
      (listMax trainTimes + resolveInterval trainTimes sis) ::
        mkTimes (listMax trainTimes + resolveInterval trainTimes sis + resolveInterval trainTimes sis)
          (resolveInterval trainTimes sis) m := by
    rw [hm, mkTimes_succ]
  rw [make_synthetic_test, hcons]
  simp only
  rw [← hcons, mkTimes_zero_eq]

/-- C1: contrary to the claim, a call with `n_rows = 0` does not return an
empty table; for every choice of the remaining arguments the code raises
`IndexError` at `t0 = times[0]` (line 67), because the list comprehension
over `range(0)` is empty.  The spec's required graceful degradation is
therefore not implemented: this theorem evaluates the code at the failing
input class. -/
theorem make_zero_rows (stdFn : List ℚ → ℚ) (rng : RNG) (trainTimes : List ℚ)
    (models : String → ℚ → ℚ) (axes : List String) (sis : Option ℚ) (ab : Nat)
    (bmin bmax drift : ℚ) (rd : Option (String → List ℚ)) (fa : Bool)
    (mn mx : Option (List (String × ℚ))) :
    make_synthetic_test stdFn rng trainTimes models axes (some 0) sis ab bmin bmax
      drift rd fa mn mx = .error .indexErr := rfl

/-- Inversion of a successful call: the returned interval is the resolved one,
the request was for at least one row, the two time columns are arithmetic
progressions and the value columns are the injection loop's output on the
baseline table. -/
theorem make_ok_inv {stdFn : List ℚ → ℚ} {rng : RNG} {trainTimes : List ℚ}
    {models : String → ℚ → ℚ} {axes : List String} {n_rows : Option Nat}
    {sis : Option ℚ} {ab : Nat} {bmin bmax drift : ℚ}
    {rd : Option (String → List ℚ)} {fa : Bool} {mn mx : Option (List (String × ℚ))}
    {out : DfTest} {ival : ℚ}
    (h : make_synthetic_test stdFn rng trainTimes models axes n_rows sis ab bmin bmax
        drift rd fa mn mx = .ok (out, ival)) :
    ival = resolveInterval trainTimes sis ∧
    1 ≤ n_rows.getD trainTimes.length ∧
    out.time = mkTimes (listMax trainTimes + ival) ival (n_rows.getD trainTimes.length) ∧
    out.time_numeric = mkTimes 0 ival (n_rows.getD trainTimes.length) ∧
    injectFrom rng (n_rows.getD trainTimes.length) ival bmin bmax axes
      (resStdOf stdFn rd) fa mx 0 ab
      (baselineCols models (resStdOf stdFn rd) drift rng
        (mkTimes 0 ival (n_rows.getD trainTimes.length)) 0 axes) = .ok out.cols := by
  have hn : 1 ≤ n_rows.getD trainTimes.length := by
    by_contra hc
    have h0 : n_rows.getD trainTimes.length = 0 := by omega
    rw [make_synthetic_test] at h
    rw [h0] at h
    cases h
  rw [make_unfold hn] at h
  cases hinj : injectFrom rng (n_rows.getD trainTimes.length)
      (resolveInterval trainTimes sis) bmin bmax axes (resStdOf stdFn rd) fa mx 0 ab
      (baselineCols models (resStdOf stdFn rd) drift rng
        (mkTimes 0 (resolveInterval trainTimes sis) (n_rows.getD trainTimes.length)) 0 axes) with
  | error e =>
    rw [hinj] at h
    cases h
  | ok cols =>
    rw [hinj] at h
    injection h with hpair
    injection hpair with h1 h2
    subst h1
    subst h2
    exact ⟨rfl, hn, rfl, rfl, hinj⟩

/-! ### Claim theorems -/

/-- C3: `make_synthetic_test` is deterministic in its seed.  The NumPy
generator state is a pure function of `seed` (`np.random.default_rng(seed)`),
modelled by the `rng` oracle: two invocations with identical inputs and equal
generator states (equal seeds) return exactly equal tables and equal sampling
intervals. -/
theorem make_synthetic_test_deterministic (stdFn : List ℚ → ℚ)
    (rng₁ rng₂ : RNG) (trainTimes : List ℚ) (models : String → ℚ → ℚ)
    (axes : List String) (n_rows : Option Nat) (sis : Option ℚ) (ab : Nat)
    (bmin bmax drift : ℚ) (rd : Option (String → List ℚ)) (fa : Bool)
    (mn mx : Option (List (String × ℚ))) (h : rng₁ = rng₂) :
    make_synthetic_test stdFn rng₁ trainTimes models axes n_rows sis ab bmin bmax
        drift rd fa mn mx =
      make_synthetic_test stdFn rng₂ trainTimes models axes n_rows sis ab bmin bmax
        drift rd fa mn mx := by
  rw [h]

/-- Witness for C3 at a concrete input. -/
theorem make_synthetic_test_deterministic_witness :
    make_synthetic_test (fun _ => 1) rng0 [0, 2] (fun _ _ => 5) ["a"] (some 2)
        (some 3) 0 20 25 0 none true none none =
      make_synthetic_test (fun _ => 1) rng0 [0, 2] (fun _ _ => 5) ["a"] (some 2)
        (some 3) 0 20 25 0 none true none none :=
  make_synthetic_test_deterministic (fun _ => 1) rng0 rng0 [0, 2] (fun _ _ => 5)
    ["a"] (some 2) (some 3) 0 20 25 0 none true none none rfl

/-- C4 counterexample: the code keeps a caller-supplied finite interval even
when it is non-positive.  With training timestamps `[0, 10, 20]` and supplied
interval `-5`, the claim's policy demands the median `10` (since `-5` is not
positive), but the code resolves to `-5`. -/
theorem supplied_nonpositive_interval_kept :
    resolveInterval [0, 10, 20] (some (-5)) = -5 ∧
    medianQ (consecDiffs [0, 10, 20]) = some 10 ∧
    ¬ (0 < (-5 : ℚ)) ∧ ((-5 : ℚ) ≠ 10) := by
  refine ⟨rfl, ?_, by norm_num, by norm_num⟩
  norm_num [medianQ, consecDiffs, sortQ, insertSorted]

/-- C4 (amended): a caller-supplied finite interval is used verbatim whatever
its sign (the code checks only finiteness, not positivity, of the supplied
value); otherwise the interval is the median of consecutive training
timestamp differences, and `1.0` when that median is non-finite (no
differences) or non-positive. -/
theorem resolve_interval_policy (ts : List ℚ) :
    (∀ q : ℚ, resolveInterval ts (some q) = q) ∧
    (∀ m : ℚ, medianQ (consecDiffs ts) = some m → 0 < m →
      resolveInterval ts none = m) ∧
    (∀ m : ℚ, medianQ (consecDiffs ts) = some m → m ≤ 0 →
      resolveInterval ts none = 1) ∧
    (medianQ (consecDiffs ts) = none → resolveInterval ts none = 1) := by
  refine ⟨fun q => rfl, ?_, ?_, ?_⟩
  · intro m hm hpos
    rw [resolveInterval.eq_def]
    simp only [hm]
    rw [if_neg (not_le.mpr hpos)]
  · intro m hm hnp
    rw [resolveInterval.eq_def]
    simp only [hm]
    rw [if_pos hnp]
  · intro hm
    rw [resolveInterval.eq_def]
    simp only [hm]

/-- Witness for C4 at a concrete input. -/
theorem resolve_interval_policy_witness :
    resolveInterval [0, 10, 20] (some 7) = 7 ∧
    resolveInterval [0, 10, 20] none = 10 :=
  ⟨(resolve_interval_policy [0, 10, 20]).1 7,
    (resolve_interval_policy [0, 10, 20]).2.1 10
      (by norm_num [medianQ, consecDiffs, sortQ, insertSorted]) (by norm_num)⟩

/-- C6: on every successful call (on a non-empty training reference), the
`time_numeric` column starts at `0.0` and its `i`-th entry is `i` times the
returned sampling interval. -/
theorem time_numeric_progression {stdFn : List ℚ → ℚ} {rng : RNG}
    {trainTimes : List ℚ} {models : String → ℚ → ℚ} {axes : List String}
    {n_rows : Option Nat} {sis : Option ℚ} {ab : Nat} {bmin bmax drift : ℚ}
    {rd : Option (String → List ℚ)} {fa : Bool} {mn mx : Option (List (String × ℚ))}
    {out : DfTest} {ival : ℚ}
    (_hts : trainTimes ≠ [])
    (h : make_synthetic_test stdFn rng trainTimes models axes n_rows sis ab bmin
        bmax drift rd fa mn mx = .ok (out, ival)) :
    out.time_numeric.getD 0 0 = 0 ∧
    ∀ i, i < out.time_numeric.length →
      out.time_numeric.getD i 0 = (i : ℚ) * ival := by
  obtain ⟨hival, hn, htime, htn, hinj⟩ := make_ok_inv h
  constructor
  · rw [htn, mkTimes_getD 0 ival (lt_of_lt_of_le Nat.zero_lt_one hn)]
    norm_num
  · intro i hi
    rw [htn, mkTimes_length] at hi
    rw [htn, mkTimes_getD 0 ival hi]
    ring

/-- Witness for C6 at a concrete input. -/
theorem time_numeric_progression_witness :
    (DfTest.mk [5, 8] [0, 3] [("a", [5, 5])]).time_numeric.getD 0 0 = 0 ∧
    ∀ i, i < (DfTest.mk [5, 8] [0, 3] [("a", [5, 5])]).time_numeric.length →
      (DfTest.mk [5, 8] [0, 3] [("a", [5, 5])]).time_numeric.getD i 0 = (i : ℚ) * 3 := by
  have h : make_synthetic_test (fun _ => 1) rng0 [0, 2] (fun _ _ => 5) ["a"]
      (some 2) (some 3) 0 20 25 0 none true none none =
      .ok (⟨[5, 8], [0, 3], [("a", [5, 5])]⟩, 3) := by
    norm_num [make_synthetic_test, resolveInterval, listMax, mkTimes, List.range_succ,
      baselineCols, baselineCol, resStdOf, injectFrom, rng0]
  exact time_numeric_progression (by simp) h

/-- C5 counterexample: a caller-supplied negative interval (`-5`, kept
verbatim by the code, see C4) yields a time column `[15, 10]` that is not
strictly increasing, and a first synthetic timestamp `15` that is not greater
than the training maximum `20`. -/
theorem negative_interval_breaks_monotonicity :
    make_synthetic_test (fun _ => 1) rng0 [0, 10, 20] (fun _ _ => 0) ["a"]
        (some 2) (some (-5)) 0 20 25 0 none true none none =
      .ok (⟨[15, 10], [0, -5], [("a", [0, 0])]⟩, -5) ∧
    ¬ ((15 : ℚ) < 10) ∧ ¬ ((20 : ℚ) < 15) := by
  refine ⟨?_, by norm_num, by norm_num⟩
  norm_num [make_synthetic_test, resolveInterval, listMax, mkTimes, List.range_succ,
    baselineCols, baselineCol, resStdOf, injectFrom, rng0]

/-- C5 (amended): on every successful call (on a non-empty training
reference) the output has exactly `n_rows` rows (defaulted to the training
row count) in every column, constant time spacing equal to the returned
interval, and first timestamp `max(train.time) + interval`; when the resolved
interval is positive — always the case unless the caller supplied a
non-positive interval — the time column is strictly increasing and the first
timestamp exceeds every training timestamp. -/
theorem output_shape_and_time_policy {stdFn : List ℚ → ℚ} {rng : RNG}
    {trainTimes : List ℚ} {models : String → ℚ → ℚ} {axes : List String}
    {n_rows : Option Nat} {sis : Option ℚ} {ab : Nat} {bmin bmax drift : ℚ}
    {rd : Option (String → List ℚ)} {fa : Bool} {mn mx : Option (List (String × ℚ))}
    {out : DfTest} {ival : ℚ}
    (_hts : trainTimes ≠ [])
    (h : make_synthetic_test stdFn rng trainTimes models axes n_rows sis ab bmin
        bmax drift rd fa mn mx = .ok (out, ival)) :
    out.time.length = n_rows.getD trainTimes.length ∧
    out.time_numeric.length = n_rows.getD trainTimes.length ∧
    (∀ q ∈ out.cols, q.2.length = n_rows.getD trainTimes.length) ∧
    out.time.getD 0 0 = listMax trainTimes + ival ∧
    (∀ i, i + 1 < out.time.length →
      out.time.getD (i + 1) 0 - out.time.getD i 0 = ival) ∧
    (0 < ival →
      (∀ i, i + 1 < out.time.length →
        out.time.getD i 0 < out.time.getD (i + 1) 0) ∧
      ∀ t ∈ trainTimes, t < out.time.getD 0 0) := by
  obtain ⟨hival, hn, htime, htn, hinj⟩ := make_ok_inv h
  refine ⟨?_, ?_, ?_, ?_, ?_, ?_⟩
  · rw [htime, mkTimes_length]
  · rw [htn, mkTimes_length]
  · intro q hq
    have hshape := injectFrom_shape ab 0 _ _ hinj
    have hmem : (q.1, q.2.length) ∈ colShape out.cols := by
      rw [colShape]
      exact List.mem_map.mpr ⟨q, hq, rfl⟩
    rw [hshape, colShape] at hmem
    obtain ⟨p, hp, hpe⟩ := List.mem_map.mp hmem
    have hlen : p.2.length = (mkTimes 0 ival (n_rows.getD trainTimes.length)).length :=
      baselineCols_mem_length models (resStdOf stdFn rd) drift rng _ axes 0 p hp
    have hq2 : q.2.length = p.2.length := (congrArg Prod.snd hpe).symm
    rw [hq2, hlen, mkTimes_length]
  · rw [htime, mkTimes_getD _ _ (by omega : 0 < n_rows.getD trainTimes.length)]
    norm_num
  · intro i hi
    rw [htime, mkTimes_length] at hi
    rw [htime, mkTimes_getD _ _ hi,
      mkTimes_getD _ _ (by omega : i < n_rows.getD trainTimes.length)]
    push_cast
    ring
  · intro hpos
    constructor
    · intro i hi
      rw [htime, mkTimes_length] at hi
      rw [htime, mkTimes_getD _ _ hi,
        mkTimes_getD _ _ (by omega : i < n_rows.getD trainTimes.length)]
      have hcast : (i : ℚ) < ((i + 1 : Nat) : ℚ) := by push_cast; linarith
      have := mul_lt_mul_of_pos_right hcast hpos
      linarith
    · intro t ht
      rw [htime, mkTimes_getD _ _ (by omega : 0 < n_rows.getD trainTimes.length)]
      have h1 : t ≤ listMax trainTimes := le_listMax ht
      push_cast
      linarith

/-- Witness for C5 at a concrete input. -/
theorem output_shape_and_time_policy_witness :
    (DfTest.mk [5, 8] [0, 3] [("a", [5, 5])]).time.length = 2 ∧
    (DfTest.mk [5, 8] [0, 3] [("a", [5, 5])]).time.getD 0 0 = listMax [0, 2] + 3 ∧
    ∀ t ∈ ([0, 2] : List ℚ),
      t < (DfTest.mk [5, 8] [0, 3] [("a", [5, 5])]).time.getD 0 0 := by
  have h : make_synthetic_test (fun _ => 1) rng0 [0, 2] (fun _ _ => 5) ["a"]
      (some 2) (some 3) 0 20 25 0 none true none none =
      .ok (⟨[5, 8], [0, 3], [("a", [5, 5])]⟩, 3) := by
    norm_num [make_synthetic_test, resolveInterval, listMax, mkTimes, List.range_succ,
      baselineCols, baselineCol, resStdOf, injectFrom, rng0]
  have hc := output_shape_and_time_policy (by simp) h
  exact ⟨hc.1, hc.2.2.2.1, (hc.2.2.2.2.2 (by norm_num)).2⟩

/-- C7: with `anomaly_blocks = 0`, on every successful call (on a non-empty
training reference) each axis column equals the pure baseline: the axis's
model prediction at the elapsed seconds `i * interval`, plus the drawn
Gaussian noise (residual standard deviation times the axis's standard-normal
draw), plus `drift_per_sec` times the elapsed seconds; no lift is added
anywhere. -/
theorem zero_blocks_pure_baseline {stdFn : List ℚ → ℚ} {rng : RNG}
    {trainTimes : List ℚ} {models : String → ℚ → ℚ} {axes : List String}
    {n_rows : Option Nat} {sis : Option ℚ} {bmin bmax drift : ℚ}
    {rd : Option (String → List ℚ)} {fa : Bool} {mn mx : Option (List (String × ℚ))}
    {out : DfTest} {ival : ℚ} {j i : Nat} {a : String}
    (_hts : trainTimes ≠ [])
    (h : make_synthetic_test stdFn rng trainTimes models axes n_rows sis 0 bmin
        bmax drift rd fa mn mx = .ok (out, ival))
    (ha : axes[j]? = some a)
    (hi : i < n_rows.getD trainTimes.length) :
    (out.cols.getD j ("", [])).1 = a ∧
    (out.cols.getD j ("", [])).2.getD i 0 =
      models a ((i : ℚ) * ival) + resStdOf stdFn rd a * rng.gauss j i +
        drift * ((i : ℚ) * ival) := by
  obtain ⟨hival, hn, htime, htn, hinj⟩ := make_ok_inv h
  have hcols : out.cols = baselineCols models (resStdOf stdFn rd) drift rng
      (mkTimes 0 ival (n_rows.getD trainTimes.length)) 0 axes := by
    rw [injectFrom] at hinj
    exact ((Except.ok.injEq _ _).mp hinj).symm
  have hb := baselineCols_getElem? models (resStdOf stdFn rd) drift rng
    (mkTimes 0 ival (n_rows.getD trainTimes.length)) axes 0 j a ha
  have hgd : out.cols.getD j ("", []) =
      (a, baselineCol (models a) (resStdOf stdFn rd a) drift
        (fun i2 => rng.gauss (0 + j) i2) 0
        (mkTimes 0 ival (n_rows.getD trainTimes.length))) := by
    rw [hcols, List.getD_eq_getElem?_getD, hb, Option.getD_some]
  rw [hgd]
  refine ⟨rfl, ?_⟩
  have hlen : i < (mkTimes 0 ival (n_rows.getD trainTimes.length)).length := by
    rw [mkTimes_length]
    exact hi
  have hv := baselineCol_getElem? (models a) (resStdOf stdFn rd a) drift
    (fun i2 => rng.gauss (0 + j) i2) (mkTimes 0 ival (n_rows.getD trainTimes.length))
    0 i hlen
  simp only []
  rw [List.getD_eq_getElem?_getD, hv, Option.getD_some, mkTimes_getD _ _ hi]
  norm_num

/-- Witness for C7 at a concrete input. -/
theorem zero_blocks_pure_baseline_witness :
    ((DfTest.mk [5, 8] [0, 3] [("a", [5, 5])]).cols.getD 0 ("", [])).1 = "a" ∧
    ((DfTest.mk [5, 8] [0, 3] [("a", [5, 5])]).cols.getD 0 ("", [])).2.getD 1 0 =
      (fun (_ : String) (_ : ℚ) => (5 : ℚ)) "a" (((1 : Nat) : ℚ) * 3) +
        resStdOf (fun _ => 1) none "a" * rng0.gauss 0 1 +
        0 * (((1 : Nat) : ℚ) * 3) := by
  have h : make_synthetic_test (fun _ => 1) rng0 [0, 2]
      (fun (_ : String) (_ : ℚ) => (5 : ℚ)) ["a"]
      (some 2) (some 3) 0 20 25 0 none true none none =
      .ok (⟨[5, 8], [0, 3], [("a", [5, 5])]⟩, 3) := by
    norm_num [make_synthetic_test, resolveInterval, listMax, mkTimes, List.range_succ,
      baselineCols, baselineCol, resStdOf, injectFrom, rng0]
  exact zero_blocks_pure_baseline (by simp) h rfl (by decide)

/-- C9: every successful injection round rewrites exactly the rows
`[start, min(n_rows, start + block_len_rows))` of the drawn axis's column,
adding the drawn lift, with `block_len_rows = max(1, round(duration /
interval))`; every other cell of the table — other columns, and rows outside
the range — is returned unchanged. -/
theorem block_frame_property {rng : RNG} {nR : Nat} {interval bmin bmax : ℚ}
    {axes : List String} {rs : String → ℚ} {fa : Bool}
    {mx : Option (List (String × ℚ))} {k : Nat}
    {cols cols' : List (String × List ℚ)}
    (h : injectOne rng nR interval bmin bmax axes rs fa mx k cols = .ok cols') :
    blockLenRows rng bmin bmax interval k =
      (max 1 (pyRound (blockLenSec rng bmin bmax k / interval))).toNat ∧
    blockEnd nR (blockStart rng nR (blockLenRows rng bmin bmax interval k) k)
        (blockLenRows rng bmin bmax interval k) =
      min nR (blockStart rng nR (blockLenRows rng bmin bmax interval k) k +
        blockLenRows rng bmin bmax interval k) ∧
    cols'.length = cols.length ∧
    ∀ j, j < cols.length →
      (cols'.getD j ("", [])).1 = (cols.getD j ("", [])).1 ∧
      (cols'.getD j ("", [])).2.length = (cols.getD j ("", [])).2.length ∧
      ∀ i, i < (cols.getD j ("", [])).2.length →
        (cols'.getD j ("", [])).2.getD i 0 =
          (if (cols.getD j ("", [])).1 = blockAxis rng axes k ∧
              blockStart rng nR (blockLenRows rng bmin bmax interval k) k ≤ i ∧
              i < blockEnd nR (blockStart rng nR (blockLenRows rng bmin bmax interval k) k)
                  (blockLenRows rng bmin bmax interval k)
           then (cols.getD j ("", [])).2.getD i 0 + blockLiftVal rng axes rs fa mx k
           else (cols.getD j ("", [])).2.getD i 0) := by
  obtain ⟨hiv, hax, hc⟩ := injectOne_ok_inv h
  subst hc
  have hs := addLift_spec (blockLiftVal rng axes rs fa mx k) (blockAxis rng axes k)
    (blockStart rng nR (blockLenRows rng bmin bmax interval k) k)
    (blockEnd nR (blockStart rng nR (blockLenRows rng bmin bmax interval k) k)
      (blockLenRows rng bmin bmax interval k)) cols
  exact ⟨rfl, rfl, hs.1, hs.2⟩

/-- Witness for C9 at a concrete input. -/
theorem block_frame_property_witness :
    ([("a", [(25 : ℚ)/2]), ("b", [7])] : List (String × List ℚ)).length =
      ([("a", [(10 : ℚ)]), ("b", [7])] : List (String × List ℚ)).length ∧
    (([("a", [(25 : ℚ)/2]), ("b", [7])] : List (String × List ℚ)).getD 1 ("", [])).1 =
      (([("a", [(10 : ℚ)]), ("b", [7])] : List (String × List ℚ)).getD 1 ("", [])).1 := by
  have h : injectOne rng0 1 1 20 25 ["a", "b"] (fun _ => 1) false none 0
      [("a", [(10 : ℚ)]), ("b", [7])] = .ok [("a", [(25 : ℚ)/2]), ("b", [7])] := by
    norm_num [injectOne, blockLenRows, blockLenSec, pyRound, blockStart, blockEnd,
      blockAxis, liftNoise, addLift, addLiftRow, rng0]
    rw [if_neg (by simp : ¬ (["a", "b"] : List String) = []),
      if_neg (by decide : ¬ "b" = "a")]
  have hc := block_frame_property h
  exact ⟨hc.2.2.1, ((hc.2.2.2 1 (by norm_num)).1)⟩

/-- C2 counterexample: `force_above=True` with a complete `MaxC` mapping does
not guarantee crossing the threshold.  With a baseline of `-100`, one block
covering exactly row 0 of axis `"a"` and `MaxC["a"] = 1`, the affected row
ends at `-494/5 = -98.8`, which is not greater than `1`: the lift is additive
and proportional to `|MaxC[axis]|`, so a deeply negative baseline stays below
the bound. -/
theorem force_above_not_guaranteed :
    make_synthetic_test (fun _ => 1) rng0 [0] (fun _ _ => -100) ["a"] (some 1)
        (some 1) 1 20 25 0 none true none (some [("a", 1)]) =
      .ok (⟨[1], [0], [("a", [-494/5])]⟩, 1) ∧
    blockAxis rng0 ["a"] 0 = "a" ∧
    blockStart rng0 1 (blockLenRows rng0 20 25 1 0) 0 = 0 ∧
    blockEnd 1 (blockStart rng0 1 (blockLenRows rng0 20 25 1 0) 0)
      (blockLenRows rng0 20 25 1 0) = 1 ∧
    List.lookup "a" [("a", (1 : ℚ))] = some 1 ∧
    ¬ ((1 : ℚ) < -494/5) := by
  refine ⟨?_, by norm_num [blockAxis, rng0], ?_, ?_, by simp, by norm_num⟩
  · norm_num [make_synthetic_test, resolveInterval, listMax, mkTimes, List.range_succ,
      baselineCols, baselineCol, resStdOf, injectFrom, injectOne, blockLenRows,
      blockLenSec, pyRound, blockStart, blockEnd, blockAxis, liftAbove, addLift,
      addLiftRow, rng0]
  · norm_num [blockStart, blockLenRows, blockLenSec, pyRound, rng0]
  · norm_num [blockEnd, blockStart, blockLenRows, blockLenSec, pyRound, rng0]

/-- C2 (amended): in a successful threshold-aware injection round, every
affected row of the drawn axis gains `lift = |MaxC[axis]| * U(1.2, 1.5)`; in
particular, whenever the row's pre-lift value is non-negative and
`MaxC[axis] > 0`, the row's value after the round strictly exceeds
`MaxC[axis]`.  (Rows whose baseline is negative enough need not cross the
bound, as the counterexample shows.) -/
theorem force_above_exceeds_threshold {rng : RNG} {nR : Nat}
    {interval bmin bmax : ℚ} {axes : List String} {rs : String → ℚ}
    {mc : List (String × ℚ)} {k : Nat} {cols cols' : List (String × List ℚ)}
    {thr : ℚ} {j i : Nat}
    (h : injectOne rng nR interval bmin bmax axes rs true (some mc) k cols = .ok cols')
    (hthr : mc.lookup (blockAxis rng axes k) = some thr)
    (hpos : 0 < thr)
    (hj : j < cols.length)
    (hname : (cols.getD j ("", [])).1 = blockAxis rng axes k)
    (hs : blockStart rng nR (blockLenRows rng bmin bmax interval k) k ≤ i)
    (he : i < blockEnd nR (blockStart rng nR (blockLenRows rng bmin bmax interval k) k)
        (blockLenRows rng bmin bmax interval k))
    (hil : i < (cols.getD j ("", [])).2.length)
    (hbase : 0 ≤ (cols.getD j ("", [])).2.getD i 0) :
    thr < (cols'.getD j ("", [])).2.getD i 0 := by
  obtain ⟨hiv, hax, hc⟩ := injectOne_ok_inv h
  subst hc
  have hsp := (addLift_spec (blockLiftVal rng axes rs true (some mc) k)
    (blockAxis rng axes k)
    (blockStart rng nR (blockLenRows rng bmin bmax interval k) k)
    (blockEnd nR (blockStart rng nR (blockLenRows rng bmin bmax interval k) k)
      (blockLenRows rng bmin bmax interval k)) cols).2 j hj
  have hval := hsp.2.2 i hil
  rw [hval, if_pos ⟨hname, hs, he⟩]
  have hlv : blockLiftVal rng axes rs true (some mc) k = liftAbove rng thr k := by
    rw [blockLiftVal.eq_def]
    simp only [hthr]
  rw [hlv, liftAbove, abs_of_pos hpos]
  have hu := rng.liftU_mem k
  nlinarith [mul_nonneg hpos.le (mul_nonneg (by norm_num : (0:ℚ) ≤ 3 / 10) (hu.1)),
    hbase, hpos]

/-- Witness for C2 at a concrete input. -/
theorem force_above_exceeds_threshold_witness :
    (1 : ℚ) <
      (([("a", [(6 : ℚ)/5])] : List (String × List ℚ)).getD 0 ("", [])).2.getD 0 0 := by
  have h : injectOne rng0 1 1 20 25 ["a"] (fun _ => 1) true (some [("a", 1)]) 0
      [("a", [(0 : ℚ)])] = .ok [("a", [(6 : ℚ)/5])] := by
    norm_num [injectOne, blockLenRows, blockLenSec, pyRound, blockStart, blockEnd,
      blockAxis, liftAbove, addLift, addLiftRow, rng0]
  exact force_above_exceeds_threshold h (by norm_num [blockAxis, rng0])
    (by norm_num) (by norm_num)
    (by norm_num [blockAxis, rng0])
    (by norm_num [blockStart, blockLenRows, blockLenSec, pyRound, rng0])
    (by norm_num [blockEnd, blockStart, blockLenRows, blockLenSec, pyRound, rng0])
    (by norm_num) (by norm_num)

/-- C8: if threshold-aware injection is requested with a `MaxC` mapping that
lacks the axis drawn for the first block, the whole call fails with the
missing-key error naming that axis; moreover every injection round whose
drawn axis is missing from the mapping raises that error rather than falling
back to the noise-relative lift. -/
theorem missing_threshold_raises_key_error {stdFn : List ℚ → ℚ} {rng : RNG}
    {trainTimes : List ℚ} {models : String → ℚ → ℚ} {axes : List String}
    {n_rows : Option Nat} {sis : Option ℚ} {ab : Nat} {bmin bmax drift : ℚ}
    {rd : Option (String → List ℚ)} {mn : Option (List (String × ℚ))}
    {mc : List (String × ℚ)}
    (hn : 1 ≤ n_rows.getD trainTimes.length)
    (hb : 1 ≤ ab)
    (hiv : resolveInterval trainTimes sis ≠ 0)
    (hax : axes ≠ [])
    (hmiss : mc.lookup (blockAxis rng axes 0) = none) :
    make_synthetic_test stdFn rng trainTimes models axes n_rows sis ab bmin bmax
        drift rd true mn (some mc) = .error (.keyErr (blockAxis rng axes 0)) ∧
    ∀ (k : Nat) (cols : List (String × List ℚ)),
      mc.lookup (blockAxis rng axes k) = none →
      injectOne rng (n_rows.getD trainTimes.length) (resolveInterval trainTimes sis)
          bmin bmax axes (resStdOf stdFn rd) true (some mc) k cols =
        .error (.keyErr (blockAxis rng axes k)) := by
  constructor
  · rw [make_unfold hn]
    obtain ⟨b, hab⟩ : ∃ b, ab = b + 1 := ⟨ab - 1, by omega⟩
    have hstep : injectFrom rng (n_rows.getD trainTimes.length)
        (resolveInterval trainTimes sis) bmin bmax axes (resStdOf stdFn rd) true
        (some mc) 0 (b + 1)
        (baselineCols models (resStdOf stdFn rd) drift rng
          (mkTimes 0 (resolveInterval trainTimes sis) (n_rows.getD trainTimes.length))
          0 axes) = .error (.keyErr (blockAxis rng axes 0)) := by
      rw [injectFrom, injectOne_missing_key _ hiv hax hmiss]
    rw [hab, hstep]
  · intro k cols hk
    exact injectOne_missing_key cols hiv hax hk

/-- Witness for C8 at a concrete input. -/
theorem missing_threshold_raises_key_error_witness :
    make_synthetic_test (fun _ => 1) rng0 [0] (fun _ _ => 0) ["a"] (some 1)
        (some 1) 1 20 25 0 none true none (some [("b", 1)]) =
      .error (.keyErr (blockAxis rng0 ["a"] 0)) :=
  (missing_threshold_raises_key_error (by decide) (by decide)
    (by norm_num [resolveInterval]) (by simp)
    (by norm_num [blockAxis, rng0]; decide)).1

/-- C10 counterexample: a call with `force_above=True` and `MaxC=None` is not
error-free for every input: with `n_rows = 0` it still raises `IndexError`
before any injection round runs. -/
theorem no_MaxC_zero_rows_still_raises :
    make_synthetic_test (fun _ => 1) rng0 [0] (fun _ _ => 0) ["a"] (some 0)
        (some 1) 10 20 25 0 none true none none = .error .indexErr := rfl

/-- C10 (amended): with `force_above=True` and `MaxC = None`, provided the
call requests at least one row, the axis list is non-empty, and the resolved
sampling interval is nonzero, no error is raised — the `force_above and MaxC
is not None` guard fails, so every anomaly block silently uses the
noise-relative lift `|residual_std[axis]| * U(2.5, 4.0)` instead of the
threshold-aware lift. -/
theorem no_MaxC_silent_noise_lift {stdFn : List ℚ → ℚ} {rng : RNG}
    {trainTimes : List ℚ} {models : String → ℚ → ℚ} {axes : List String}
    {n_rows : Option Nat} {sis : Option ℚ} {ab : Nat} {bmin bmax drift : ℚ}
    {rd : Option (String → List ℚ)} {mn : Option (List (String × ℚ))}
    (hn : 1 ≤ n_rows.getD trainTimes.length)
    (hax : axes ≠ [])
    (hiv : resolveInterval trainTimes sis ≠ 0) :
    (∃ r, make_synthetic_test stdFn rng trainTimes models axes n_rows sis ab bmin
      bmax drift rd true mn none = .ok r) ∧
    ∀ (k : Nat) (cols : List (String × List ℚ)),
      injectOne rng (n_rows.getD trainTimes.length) (resolveInterval trainTimes sis)
          bmin bmax axes (resStdOf stdFn rd) true none k cols =
        .ok (addLift (liftNoise rng (resStdOf stdFn rd (blockAxis rng axes k)) k)
          (blockAxis rng axes k)
          (blockStart rng (n_rows.getD trainTimes.length)
            (blockLenRows rng bmin bmax (resolveInterval trainTimes sis) k) k)
          (blockEnd (n_rows.getD trainTimes.length)
            (blockStart rng (n_rows.getD trainTimes.length)
              (blockLenRows rng bmin bmax (resolveInterval trainTimes sis) k) k)
            (blockLenRows rng bmin bmax (resolveInterval trainTimes sis) k)) cols) := by
  constructor
  · rw [make_unfold hn]
    obtain ⟨cols', hcols⟩ := injectFrom_no_MaxC_ok hiv hax ab 0
      (baselineCols models (resStdOf stdFn rd) drift rng
        (mkTimes 0 (resolveInterval trainTimes sis) (n_rows.getD trainTimes.length))
        0 axes)
    rw [hcols]
    exact ⟨_, rfl⟩
  · intro k cols
    exact injectOne_no_MaxC cols hiv hax

/-- Witness for C10 at a concrete input. -/
theorem no_MaxC_silent_noise_lift_witness :
    ∃ r, make_synthetic_test (fun _ => 1) rng0 [0, 2] (fun _ _ => 5) ["a"]
      (some 1) (some 3) 2 20 25 0 none true none none = .ok r :=
  (no_MaxC_silent_noise_lift (by decide) (by simp)
    (by norm_num [resolveInterval])).1
